import Mathlib

/-!
Verification development for the supplier-scraper program (`scraper.py`).

The program is shallowly embedded: each Python function of the source is
translated into an executable Lean definition.  Network effects (the
ScraperAPI fetch, the Google search page) are modelled by explicit oracle
parameters: a fetch oracle mapping a target URL and a two-letter country
code to the fetched HTML or a transport failure, and the list of anchor
hrefs found on the fetched search-result page.  HTML parsing is performed
by the external BeautifulSoup library; the parsed document is modelled by
the `Soup` structure, which records exactly the observations the source
code makes of the parsed tree, and an abstract `parse : String → Soup`
parameter stands for the library parser.
-/

/-- Characters matched by Python's regex class `\s` (and stripped by
`str.strip`) at the ASCII level. -/
def pyIsSpace (c : Char) : Bool :=
  c = ' ' || c = '\t' || c = '\n' || c = '\x0d' || c = '\x0b' || c = '\x0c'

/-- Python `str.strip()` on a character list: drops leading and trailing
whitespace. -/
def pyStrip (l : List Char) : List Char :=
  ((l.dropWhile pyIsSpace).reverse.dropWhile pyIsSpace).reverse

/-- Helper for `cleanup_text`: Python `re.sub(r"\s+", " ", text)`.  The
boolean argument records whether the previous character was part of a
whitespace run already replaced by a single space. -/
def collapseWs : Bool → List Char → List Char
  | _, [] => []
  | prevSpace, c :: rest =>
    if pyIsSpace c then
      if prevSpace then collapseWs true rest
      else ' ' :: collapseWs true rest
    else c :: collapseWs false rest

/-- Source `_cleanup_text` (scraper.py line 110): collapse whitespace runs
to a single space, then strip the ends. -/
def cleanup_text (text : String) : String :=
  (pyStrip (collapseWs false text.toList)).asString

/-- Python `", ".join(l)`. -/
def joinComma : List String → String
  | [] => ""
  | [x] => x
  | x :: y :: rest => x ++ ", " ++ joinComma (y :: rest)

/-- Python `" ".join(l)`. -/
def joinSpace : List String → String
  | [] => ""
  | [x] => x
  | x :: y :: rest => x ++ " " ++ joinSpace (y :: rest)

/-- Python truthiness of an optional string: `None` and `""` are falsy. -/
def pyTruthy : Option String → Bool
  | none => false
  | some s => !s.isEmpty

/-- Characters allowed in a URL scheme by `urllib.parse` (letters, digits,
`+`, `-`, `.`). -/
def schemeChar (c : Char) : Bool :=
  c.isAlpha || c.isDigit || c = '+' || c = '-' || c = '.'

/-- Models `urllib.parse.urlparse(url).netloc` from the Python standard
library (an external collaborator of the source): an initial
`scheme:` part (first colon, preceded by a letter-initial run of scheme
characters) is removed, and the netloc is the text after a leading `//`
up to the first `/`, `?` or `#`; it is empty when the remainder does not
start with `//`. -/
def pyNetloc (url : String) : String :=
  let l := url.toList
  let pre := l.takeWhile (fun c => c ≠ ':')
  let rest :=
    if pre.length < l.length ∧ pre ≠ [] ∧ pre.all schemeChar ∧
        (pre.headD ' ').isAlpha then
      l.drop (pre.length + 1)
    else l
  match rest with
  | '/' :: '/' :: tail =>
    (tail.takeWhile (fun c => c ≠ '/' ∧ c ≠ '?' ∧ c ≠ '#')).asString
  | _ => ""

/-- Insert a string into a strictly sorted list, keeping it strictly
sorted and duplicate free. -/
def insertSorted (x : String) : List String → List String
  | [] => [x]
  | y :: ys =>
    if x < y then x :: y :: ys
    else if x = y then y :: ys
    else y :: insertSorted x ys

/-- Python `sorted(set(l))` for a list of strings: the strictly sorted
enumeration (by code-point lexicographic order) of the distinct elements. -/
def sortedDedup (l : List String) : List String :=
  l.foldr insertSorted []

/-- Source `SupplierRecord` dataclass (scraper.py lines 20-62).  Optional
fields default to `none` exactly as the dataclass defaults them to
`None`, and `sources` defaults to the empty list. -/
structure SupplierRecord where
  serial_number : Nat
  name : String
  company_details : Option String := none
  export_capabilities : Option String := none
  operational_experience_years : Option String := none
  product_service_capability : Option String := none
  annual_capacity_mt : Option String := none
  process_capabilities : Option String := none
  supply_chain_solutions_available : Option String := none
  quality_certifications : Option String := none
  business_metrics : Option String := none
  commercial_capabilities : Option String := none
  website : Option String := none
  country : Option String := none
  region : Option String := none
  year_of_establishment : Option String := none
  company_ownership : Option String := none
  management_structure : Option String := none
  factory_locations : Option String := none
  key_clients : Option String := none
  contact_person : Option String := none
  contact_number : Option String := none
  email : Option String := none
  capability_to_export : Option String := none
  global_presence : Option String := none
  products_services_offered : Option String := none
  end_use_applications : Option String := none
  key_usps : Option String := none
  total_capacity_units_per_annum : Option String := none
  open_capacity_percent : Option String := none
  process_1 : Option String := none
  process_2 : Option String := none
  process_3 : Option String := none
  other_certifications : Option String := none
  annual_revenues_usd_mn : Option String := none
  number_of_employees : Option String := none
  pricing_capabilities : Option String := none
  lead_time : Option String := none
  payment_terms : Option String := none
  sources : List String := []
  notes : Option String := none
deriving DecidableEq

/-- An item of a regular-expression pattern, as used by the two patterns
of the source (`EMAIL_RE`, line 14, and `PHONE_RE`, lines 15-17): a
character-class repetition `cls p mn mx` (matching between `mn` and `mx`
characters satisfying `p`, unbounded when `mx = none`), or a greedy
optional group `opt sub` over a sub-pattern. -/
inductive RItem where
  | cls (p : Char → Bool) (mn : Nat) (mx : Option Nat)
  | opt (sub : List RItem)

/-- Denotational semantics of a pattern: `MatchesSeq items s` holds when
the character list `s` is decomposed by the sequence of items, each
`cls` item consuming a run of class characters within its repetition
bounds and each `opt` item consuming either nothing or a match of its
sub-pattern. -/
inductive MatchesSeq : List RItem → List Char → Prop where
  | nil : MatchesSeq [] []
  | cls {p : Char → Bool} {mn : Nat} {mx : Option Nat} {rest : List RItem}
      {a b : List Char} :
      (∀ c ∈ a, p c = true) → mn ≤ a.length →
      (∀ m, mx = some m → a.length ≤ m) →
      MatchesSeq rest b → MatchesSeq (.cls p mn mx :: rest) (a ++ b)
  | optSkip {sub rest : List RItem} {s : List Char} :
      MatchesSeq rest s → MatchesSeq (.opt sub :: rest) s
  | optTake {sub rest : List RItem} {a b : List Char} :
      MatchesSeq sub a → MatchesSeq rest b →
      MatchesSeq (.opt sub :: rest) (a ++ b)

/-- Largest run length a greedy class repetition may try: the available
run, capped by the pattern's maximum when there is one. -/
def hiBound (run : Nat) : Option Nat → Nat
  | none => run
  | some m => min run m

/-- Backtracking matcher mirroring CPython's `re` engine on the patterns
above: `matchLensF fuel items s` lists, in the engine's backtracking
priority order (greedy repetitions try longer runs first, optional
groups try the present alternative first), the lengths of the prefixes
of `s` matched by the item sequence.  The head of the list is the match
the engine returns.  `fuel` bounds the recursion depth; every recursive
call strictly reduces the nested size of `items`, so any fuel at least
that size gives the fixed point. -/
def matchLensF : Nat → List RItem → List Char → List Nat
  | 0, _, _ => []
  | _ + 1, [], _ => [0]
  | fuel + 1, .cls p mn mx :: rest, s =>
    let hi := hiBound (s.takeWhile p).length mx
    if hi < mn then []
    else
      ((List.range (hi + 1 - mn)).map (fun j => hi - j)).flatMap
        (fun k => (matchLensF fuel rest (s.drop k)).map (fun l => k + l))
  | fuel + 1, .opt sub :: rest, s =>
    ((matchLensF fuel sub s).flatMap
      (fun l => (matchLensF fuel rest (s.drop l)).map (fun l2 => l + l2)))
    ++ matchLensF fuel rest s

/-- Matcher entry point.  The nested size of both concrete patterns used
by the source is below 20, so a fuel of 50 is never exhausted. -/
def matchLens (items : List RItem) (s : List Char) : List Nat :=
  matchLensF 50 items s

/-- Scanner mirroring `re.finditer`: try each start position from the
left; on a match, emit the matched characters and resume after them
(advancing one position on a hypothetical empty match, as CPython does).
`fuel` bounds the recursion; every step strictly shortens the remaining
input, so fuel `s.length + 1` is never exhausted. -/
def finditerGo (pat : List RItem) : Nat → List Char → List (List Char)
  | 0, _ => []
  | _ + 1, [] => []
  | fuel + 1, c :: rest =>
    match (matchLens pat (c :: rest)).head? with
    | none => finditerGo pat fuel rest
    | some 0 => [] :: finditerGo pat fuel rest
    | some (l + 1) =>
      (c :: rest).take (l + 1) :: finditerGo pat fuel ((c :: rest).drop (l + 1))

/-- Python `PAT.finditer(text)` as the list of matched substrings. -/
def pyFinditer (pat : List RItem) (s : List Char) : List (List Char) :=
  finditerGo pat (s.length + 1) s

/-- Character class `[A-Z0-9._%+-]` of `EMAIL_RE` under `re.IGNORECASE`. -/
def emailLocalClass (c : Char) : Bool :=
  c.isAlpha || c.isDigit || c = '.' || c = '_' || c = '%' || c = '+' || c = '-'

/-- Character class `[A-Z0-9.-]` of `EMAIL_RE` under `re.IGNORECASE`. -/
def emailDomainClass (c : Char) : Bool :=
  c.isAlpha || c.isDigit || c = '.' || c = '-'

/-- Source `EMAIL_RE` (scraper.py line 14):
`[A-Z0-9._%+-]+@[A-Z0-9.-]+\.[A-Z]{2,}` with `re.IGNORECASE`. -/
def emailPat : List RItem :=
  [.cls emailLocalClass 1 none,
   .cls (fun c => c = '@') 1 (some 1),
   .cls emailDomainClass 1 none,
   .cls (fun c => c = '.') 1 (some 1),
   .cls Char.isAlpha 2 none]

/-- Separator class `[\s-]` of `PHONE_RE`. -/
def sepClass (c : Char) : Bool :=
  pyIsSpace c || c = '-'

/-- Source `PHONE_RE` (scraper.py lines 15-17):
`(?:\+?\d{1,3}[\s-]?)?(?:\(?\d{2,4}\)?[\s-]?)?\d{3,4}[\s-]?\d{3,4}`.
Single-character optional atoms `X?` are rendered as `cls _ 0 (some 1)`. -/
def phonePat : List RItem :=
  [.opt [.cls (fun c => c = '+') 0 (some 1),
         .cls Char.isDigit 1 (some 3),
         .cls sepClass 0 (some 1)],
   .opt [.cls (fun c => c = '(') 0 (some 1),
         .cls Char.isDigit 2 (some 4),
         .cls (fun c => c = ')') 0 (some 1),
         .cls sepClass 0 (some 1)],
   .cls Char.isDigit 3 (some 4),
   .cls sepClass 0 (some 1),
   .cls Char.isDigit 3 (some 4)]

/-- Number of digit characters in a string; the length of Python
`re.sub(r"\D", "", value)`. -/
def digitCount (l : List Char) : Nat :=
  (l.filter Char.isDigit).length

/-- Source `_extract_emails` (scraper.py lines 96-97):
`sorted(set(match.group(0) for match in EMAIL_RE.finditer(text)))`. -/
def extract_emails (text : String) : List String :=
  sortedDedup ((pyFinditer emailPat text.toList).map List.asString)

/-- Source `_extract_phones` (scraper.py lines 100-107): keep the matches
of `PHONE_RE` with at least 7 digits, strip them, then `sorted(set(...))`. -/
def extract_phones (text : String) : List String :=
  sortedDedup
    (((pyFinditer phonePat text.toList).filter
        (fun v => 7 ≤ digitCount v)).map (fun v => (pyStrip v).asString))

/-- The email grammar of the specification: the full string is matched by
`EMAIL_RE`. -/
def matchesEmailGrammar (s : String) : Prop :=
  MatchesSeq emailPat s.toList

/-- Outcome of the opaque fetch capability for one request: the body text
on a 2xx response, or the description of the `requests.RequestException`
raised on a transport error, timeout or non-2xx status (scraper.py lines
72-75, `_get_html` with `raise_for_status`). -/
inductive FetchOutcome where
  | success (html : String)
  | failure (err : String)
deriving DecidableEq

/-- Observations the source makes of a BeautifulSoup-parsed document:
`titleString` is `soup.title.string` when the title tag exists and has a
string (`none` covers both a missing tag and a `None` string),
`h1Text` is the text of the first `h1` tag when one exists,
`metaContent` is the `content` attribute of the `meta name="description"`
tag when the tag and attribute exist, `paragraphs` lists
`p.get_text(" ", strip=True)` for every `p` tag, and `fullText` is
`soup.get_text(" ", strip=True)`. -/
structure Soup where
  titleString : Option String := none
  h1Text : Option String := none
  metaContent : Option String := none
  paragraphs : List String := []
  fullText : String := ""
deriving DecidableEq

/-- Source `_page_summary` (scraper.py lines 114-121): prefer the truthy
`content` of the description meta tag; otherwise, when any `p` tags
exist, the cleaned join of the first three paragraph texts; otherwise
the empty string. -/
def page_summary (soup : Soup) : String :=
  match soup.metaContent with
  | some content =>
    if content ≠ "" then cleanup_text content
    else match soup.paragraphs with
      | [] => ""
      | ps => cleanup_text (joinSpace (ps.take 3))
  | none =>
    match soup.paragraphs with
    | [] => ""
    | ps => cleanup_text (joinSpace (ps.take 3))

/-- Source `_best_title` (scraper.py lines 124-130): the cleaned truthy
title string, else the cleaned text of the first `h1` tag when one
exists, else the empty string. -/
def best_title (soup : Soup) : String :=
  match soup.titleString with
  | some t =>
    if t ≠ "" then cleanup_text t
    else match soup.h1Text with
      | some h => cleanup_text h
      | none => ""
  | none =>
    match soup.h1Text with
    | some h => cleanup_text h
    | none => ""

/-- Body of `scrape_supplier_page` after the fetch (scraper.py lines
142-162): a pure transform of the URL, the already-fetched HTML, and the
country and region labels, with `parse` standing for the BeautifulSoup
parser. -/
def interpretPage (parse : String → Soup) (url html country region : String) :
    SupplierRecord :=
  let soup := parse html
  let text := soup.fullText
  let emails := extract_emails text
  let phones := extract_phones text
  let title := best_title soup
  let summary := page_summary soup
  { serial_number := 0
    name := if title ≠ "" then title else pyNetloc url
    company_details := if summary ≠ "" then some summary else none
    website := some url
    country := some country
    region := some region
    contact_number := if phones ≠ [] then some (joinComma phones) else none
    email := if emails ≠ [] then some (joinComma emails) else none
    products_services_offered := none
    export_capabilities := none
    sources := [url]
    notes := none }

/-- Source `scrape_supplier_page` (scraper.py lines 133-162): fetch the
page through the proxy (the `fetch` oracle takes the target URL and the
two-letter country code, as `_get_html` does), then build the record; a
fetch failure propagates as the error value. -/
def scrape_supplier_page (fetch : String → String → FetchOutcome)
    (parse : String → Soup) (url country region country_code : String) :
    Except String SupplierRecord :=
  match fetch url country_code with
  | .failure e => .error e
  | .success html => .ok (interpretPage parse url html country region)

/-- Source `enrich_record_from_directory` (scraper.py lines 165-171),
with the in-place mutation rendered as returning the updated record:
fill `email` / `contact_number` from the directory text only when
matches exist and the current field is falsy (`None` or `""`). -/
def enrich_record_from_directory (record : SupplierRecord)
    (directory_text : String) : SupplierRecord :=
  let emails := extract_emails directory_text
  let phones := extract_phones directory_text
  let record1 :=
    if emails ≠ [] ∧ pyTruthy record.email = false then
      { record with email := some (joinComma emails) }
    else record
  if phones ≠ [] ∧ pyTruthy record1.contact_number = false then
    { record1 with contact_number := some (joinComma phones) }
  else record1

/-- Index of the first occurrence of `sep` in `l`, scanning from the
left. -/
def findOcc (sep : List Char) : List Char → Option Nat
  | [] => if sep = [] then some 0 else none
  | c :: rest =>
    if sep.isPrefixOf (c :: rest) then some 0
    else (findOcc sep rest).map (fun i => i + 1)

/-- Python `str.split(sep)` for a non-empty separator, by fuel-bounded
recursion: each step consumes at least one character of `l`, so fuel
`l.length` is never exhausted (the fuel-0 base also returns `[l]`,
which is the correct answer for the empty remainder). -/
def pySplitF (sep : List Char) : Nat → List Char → List (List Char)
  | 0, l => [l]
  | fuel + 1, l =>
    match findOcc sep l with
    | none => [l]
    | some i => l.take i :: pySplitF sep fuel (l.drop (i + sep.length))

/-- Python `str.split(sep)` (non-empty `sep`). -/
def pySplit (sep l : List Char) : List (List Char) :=
  pySplitF sep l.length l

/-- Python `sep in l`: substring containment, via the first-occurrence
search. -/
def containsSeq (sep l : List Char) : Bool :=
  (findOcc sep l).isSome

/-- Link extraction for one anchor of the search-result page (scraper.py
lines 86-90): an href starting with `/url?q=` contributes
`href.split("/url?q=")[-1].split("&")[0]` when that is non-empty and
does not contain `google.com`. -/
def extractLink (href : String) : Option String :=
  if ("/url?q=".toList).isPrefixOf href.toList then
    let link := (pySplit "/url?q=".toList href.toList).getLastD []
    let link2 := (pySplit ['&'] link).headD []
    if link2 ≠ [] ∧ containsSeq "google.com".toList link2 = false then
      some link2.asString
    else none
  else none

/-- Loop of `google_search` (scraper.py lines 84-92) over the anchors of
the result page: append each extracted link to the accumulator and stop
as soon as the accumulator holds at least `num_results` links. -/
def googleLoop (num_results : Nat) : List String → List String → List String
  | acc, [] => acc
  | acc, href :: rest =>
    let acc2 := match extractLink href with
      | some l => acc ++ [l]
      | none => acc
    if num_results ≤ acc2.length then acc2
    else googleLoop num_results acc2 rest

/-- Python `list(dict.fromkeys(l))`: deduplication preserving the first
occurrence of each element; `seen` accumulates the elements already
emitted. -/
def dedupGo (seen : List String) : List String → List String
  | [] => []
  | x :: xs =>
    if x ∈ seen then dedupGo seen xs
    else x :: dedupGo (x :: seen) xs

/-- Python `list(dict.fromkeys(l))`. -/
def dedupKeepFirst (l : List String) : List String :=
  dedupGo [] l

/-- Source `google_search` (scraper.py lines 78-93).  The fetched search
page is represented by the list of `href` attributes of its anchors, in
document order (`a.get("href", "")`, so a missing attribute is `""`);
the query and country code only influence which page is fetched, not
the extraction, and are therefore not parameters of the model. -/
def google_search (hrefs : List String) (num_results : Nat) : List String :=
  dedupKeepFirst (googleLoop num_results [] hrefs)

/-- Events observable in one run of the `build_records` loop: the start
of a per-URL fetch-and interpret attempt, and the blocking
`time.sleep(delay_s)` pause. -/
inductive BatchEvent where
  | attempt (url : String)
  | pause
deriving DecidableEq, BEq

/-- Placeholder record built in the `except` branch of `build_records`
(scraper.py lines 200-210). -/
def failureRecord (idx : Nat) (url country region exc : String) :
    SupplierRecord :=
  { serial_number := idx
    name := pyNetloc url
    website := some url
    country := some country
    region := some region
    notes := some ("Failed to fetch page: " ++ exc)
    sources := [url] }

/-- Loop of `build_records` (scraper.py lines 186-210) over the
discovered links, starting at serial `idx`: on a successful scrape the
record gets the 1-based position and a pause follows; on a fetch
failure the placeholder record is appended and the loop continues
immediately with the next URL.  The second component is the event
trace of the run. -/
def processLinks (fetch : String → String → FetchOutcome)
    (parse : String → Soup) (country region country_code : String) :
    List String → Nat → List SupplierRecord × List BatchEvent
  | [], _ => ([], [])
  | url :: rest, idx =>
    let tail := processLinks fetch parse country region country_code rest (idx + 1)
    match scrape_supplier_page fetch parse url country region country_code with
    | .ok record =>
      ({ record with serial_number := idx } :: tail.1,
        .attempt url :: .pause :: tail.2)
    | .error exc =>
      (failureRecord idx url country region exc :: tail.1,
        .attempt url :: tail.2)

/-- Source `build_records` (scraper.py lines 174-211): discover the
links once via `google_search`, then process them in order starting at
serial number 1.  The query, session and API key only influence the
oracles; the delay value only scales the pauses recorded in the trace. -/
def build_records (fetch : String → String → FetchOutcome)
    (parse : String → Soup) (hrefs : List String)
    (country region country_code : String) (num_results : Nat) :
    List SupplierRecord × List BatchEvent :=
  processLinks fetch parse country region country_code
    (google_search hrefs num_results) 1

/-- The inter-request-delay discipline claimed by the specification:
every `attempt` event other than the first event of the trace is
immediately preceded by a `pause` event. -/
def pauseBeforeEveryNext (es : List BatchEvent) : Bool :=
  (es.zip es.tail).all fun pr =>
    match pr.2 with
    | .attempt _ => pr.1 == .pause
    | .pause => true

theorem mem_insertSorted {x y : String} {l : List String}
    (h : y ∈ insertSorted x l) : y = x ∨ y ∈ l := by
  induction l with
  | nil => simpa [insertSorted] using h
  | cons z zs ih =>
    by_cases h1 : x < z
    · simpa [insertSorted, h1] using h
    · by_cases h2 : x = z
      · simp only [insertSorted, if_neg h1, if_pos h2] at h
        right; exact h
      · simp only [insertSorted, if_neg h1, if_neg h2, List.mem_cons] at h
        rcases h with h | h
        · right; simp [h]
        · rcases ih h with h | h
          · left; exact h
          · right; simp [h]

theorem pairwise_insertSorted {x : String} {l : List String}
    (h : l.Pairwise (· < ·)) : (insertSorted x l).Pairwise (· < ·) := by
  induction l with
  | nil => simp [insertSorted]
  | cons z zs ih =>
    rw [List.pairwise_cons] at h
    by_cases h1 : x < z
    · simp only [insertSorted, if_pos h1, List.pairwise_cons, List.mem_cons]
      refine ⟨?_, ?_, h.2⟩
      · rintro a (rfl | ha)
        · exact h1
        · exact h1.trans (h.1 a ha)
      · exact h.1
    · by_cases h2 : x = z
      · simp only [insertSorted, if_neg h1, if_pos h2, List.pairwise_cons]
        exact h
      · simp only [insertSorted, if_neg h1, if_neg h2, List.pairwise_cons]
        refine ⟨?_, ih h.2⟩
        intro a ha
        rcases mem_insertSorted ha with rfl | ha
        · exact lt_of_le_of_ne (not_lt.mp h1) (Ne.symm h2)
        · exact h.1 a ha

theorem sortedDedup_pairwise (l : List String) :
    (sortedDedup l).Pairwise (· < ·) := by
  induction l with
  | nil => simp [sortedDedup]
  | cons x xs ih => exact pairwise_insertSorted ih

theorem sortedDedup_nodup (l : List String) : (sortedDedup l).Nodup := by
  exact (sortedDedup_pairwise l).imp ne_of_lt

theorem mem_sortedDedup {y : String} {l : List String}
    (h : y ∈ sortedDedup l) : y ∈ l := by
  induction l with
  | nil => simp [sortedDedup] at h
  | cons x xs ih =>
    rcases mem_insertSorted h with rfl | h
    · simp
    · simp [ih h]

theorem take_takeWhile_sat (p : Char → Bool) :
    ∀ (s : List Char) (k : Nat), k ≤ (s.takeWhile p).length →
      ∀ c ∈ s.take k, p c = true := by
  intro s
  induction s with
  | nil => intro k _ c hc; simp at hc
  | cons x xs ih =>
    intro k hk c hc
    by_cases hp : p x
    · cases k with
      | zero => simp at hc
      | succ k =>
        simp only [List.takeWhile_cons, if_pos hp, List.length_cons,
          Nat.succ_le_succ_iff] at hk
        simp only [List.take_succ_cons, List.mem_cons] at hc
        rcases hc with rfl | hc
        · exact hp
        · exact ih k hk c hc
    · simp only [List.takeWhile_cons, if_neg hp, List.length_nil,
        Nat.le_zero] at hk
      subst hk
      simp at hc

theorem hiBound_le_run (run : Nat) (mx : Option Nat) : hiBound run mx ≤ run := by
  cases mx with
  | none => exact le_refl _
  | some m => exact min_le_left _ _

theorem hiBound_le_some (run m : Nat) : hiBound run (some m) ≤ m :=
  min_le_right _ _

theorem matchLensF_sound :
    ∀ (fuel : Nat) (items : List RItem) (s : List Char) (l : Nat),
      l ∈ matchLensF fuel items s →
      MatchesSeq items (s.take l) ∧ l ≤ s.length := by
  intro fuel
  induction fuel with
  | zero => intro items s l h; simp [matchLensF] at h
  | succ fuel ih =>
    intro items s l h
    cases items with
    | nil =>
      simp only [matchLensF, List.mem_singleton] at h
      subst h
      exact ⟨by simpa using MatchesSeq.nil, Nat.zero_le _⟩
    | cons item rest =>
      cases item with
      | cls p mn mx =>
        simp only [matchLensF] at h
        split at h
        · simp at h
        · rename_i hge
          rw [not_lt] at hge
          simp only [List.mem_flatMap, List.mem_map, List.mem_range] at h
          obtain ⟨k, ⟨j, hj, hk⟩, l2, hl2, rfl⟩ := h
          have hrun : (s.takeWhile p).length ≤ s.length :=
            (List.takeWhile_prefix p).length_le
          have hkhi : k ≤ hiBound (s.takeWhile p).length mx := by omega
          have hkmn : mn ≤ k := by omega
          have hkrun : k ≤ (s.takeWhile p).length :=
            le_trans hkhi (hiBound_le_run _ _)
          have hks : k ≤ s.length := le_trans hkrun hrun
          obtain ⟨hm, hl2le⟩ := ih rest (s.drop k) l2 hl2
          have htake : s.take (k + l2) = s.take k ++ (s.drop k).take l2 :=
            List.take_add s k l2
          refine ⟨?_, ?_⟩
          · rw [htake]
            refine MatchesSeq.cls (take_takeWhile_sat p s k hkrun) ?_ ?_ hm
            · rwa [List.length_take, min_eq_left hks]
            · intro m hmx
              rw [List.length_take, min_eq_left hks]
              subst hmx
              exact le_trans hkhi (hiBound_le_some _ _)
          · rw [List.length_drop] at hl2le
            omega
      | opt sub =>
        simp only [matchLensF, List.mem_append, List.mem_flatMap,
          List.mem_map] at h
        rcases h with ⟨l1, hl1, l2, hl2, rfl⟩ | h
        · obtain ⟨hm1, hle1⟩ := ih sub s l1 hl1
          obtain ⟨hm2, hle2⟩ := ih rest (s.drop l1) l2 hl2
          refine ⟨?_, ?_⟩
          · rw [List.take_add s l1 l2]
            exact MatchesSeq.optTake hm1 hm2
          · rw [List.length_drop] at hle2
            omega
        · obtain ⟨hm, hle⟩ := ih rest s l h
          exact ⟨MatchesSeq.optSkip hm, hle⟩

theorem matchLens_sound {items : List RItem} {s : List Char} {l : Nat}
    (h : l ∈ matchLens items s) :
    MatchesSeq items (s.take l) ∧ l ≤ s.length :=
  matchLensF_sound 50 items s l h

theorem finditerGo_sound (pat : List RItem) :
    ∀ (fuel : Nat) (s : List Char) (e : List Char),
      e ∈ finditerGo pat fuel s → MatchesSeq pat e := by
  intro fuel
  induction fuel with
  | zero => intro s e h; simp [finditerGo] at h
  | succ fuel ih =>
    intro s e h
    cases s with
    | nil => simp [finditerGo] at h
    | cons c rest =>
      simp only [finditerGo] at h
      cases hh : (matchLens pat (c :: rest)).head? with
      | none =>
        rw [hh] at h
        exact ih rest e h
      | some l =>
        have hmem : l ∈ matchLens pat (c :: rest) := by
          cases hq : matchLens pat (c :: rest) with
          | nil => rw [hq] at hh; simp at hh
          | cons a as =>
            rw [hq] at hh
            simp only [List.head?_cons, Option.some.injEq] at hh
            simp [hq, hh]
        obtain ⟨hm, _⟩ := matchLens_sound hmem
        cases l with
        | zero =>
          rw [hh] at h
          simp only [List.mem_cons] at h
          rcases h with rfl | h
          · simpa using hm
          · exact ih rest e h
        | succ n =>
          rw [hh] at h
          simp only [List.mem_cons] at h
          rcases h with rfl | h
          · exact hm
          · exact ih ((c :: rest).drop (n + 1)) e h

theorem pyFinditer_sound {pat : List RItem} {s e : List Char}
    (h : e ∈ pyFinditer pat s) : MatchesSeq pat e :=
  finditerGo_sound pat (s.length + 1) s e h

theorem toList_asString (l : List Char) : l.asString.toList = l := rfl

theorem pyIsSpace_not_digit {c : Char} (h : pyIsSpace c = true) :
    c.isDigit = false := by
  simp only [pyIsSpace, Bool.or_eq_true, decide_eq_true_eq] at h
  rcases h with ((((h | h) | h) | h) | h) | h <;> subst h <;> decide

theorem digitCount_cons_space {c : Char} (l : List Char)
    (h : pyIsSpace c = true) : digitCount (c :: l) = digitCount l := by
  simp [digitCount, List.filter_cons, pyIsSpace_not_digit h]

theorem digitCount_dropWhile_space (l : List Char) :
    digitCount (l.dropWhile pyIsSpace) = digitCount l := by
  induction l with
  | nil => rfl
  | cons c rest ih =>
    by_cases hc : pyIsSpace c
    · rw [List.dropWhile_cons, if_pos hc, ih, digitCount_cons_space rest hc]
    · rw [List.dropWhile_cons, if_neg hc]

theorem digitCount_reverse (l : List Char) :
    digitCount l.reverse = digitCount l := by
  simp [digitCount, List.filter_reverse]

theorem digitCount_pyStrip (l : List Char) :
    digitCount (pyStrip l) = digitCount l := by
  unfold pyStrip
  rw [digitCount_reverse, digitCount_dropWhile_space, digitCount_reverse,
    digitCount_dropWhile_space]

/-- C5: for every input text, `extract_emails` returns a strictly sorted
(hence sorted and duplicate-free) list of strings each of which matches
the email grammar of `EMAIL_RE`, and `extract_phones` returns a strictly
sorted, duplicate-free list of strings each of which contains at least 7
digit characters (separators ignored). -/
theorem C5_extractors_sorted_and_wellformed (t : String) :
    ((extract_emails t).Pairwise (· < ·) ∧ (extract_emails t).Nodup ∧
      ∀ s ∈ extract_emails t, matchesEmailGrammar s) ∧
    ((extract_phones t).Pairwise (· < ·) ∧ (extract_phones t).Nodup ∧
      ∀ s ∈ extract_phones t, 7 ≤ digitCount s.toList) := by
  refine ⟨⟨sortedDedup_pairwise _, sortedDedup_nodup _, ?_⟩,
          ⟨sortedDedup_pairwise _, sortedDedup_nodup _, ?_⟩⟩
  · intro s hs
    have hmem := mem_sortedDedup hs
    simp only [List.mem_map] at hmem
    obtain ⟨e, he, rfl⟩ := hmem
    have hsound := pyFinditer_sound he
    unfold matchesEmailGrammar
    rwa [toList_asString]
  · intro s hs
    have hmem := mem_sortedDedup hs
    simp only [List.mem_map, List.mem_filter] at hmem
    obtain ⟨v, ⟨hv, hd⟩, rfl⟩ := hmem
    rw [toList_asString, digitCount_pyStrip]
    simpa using hd

theorem C5_witness :
    ("a@b.co" ∈ extract_emails "mail a@b.co" ∧
      "123-4567" ∈ extract_phones "tel 123-4567") ∧
    matchesEmailGrammar "a@b.co" ∧ 7 ≤ digitCount "123-4567".toList :=
  ⟨⟨by decide, by decide⟩,
    (C5_extractors_sorted_and_wellformed "mail a@b.co").1.2.2 "a@b.co"
      (by decide),
    (C5_extractors_sorted_and_wellformed "tel 123-4567").2.2.2 "123-4567"
      (by decide)⟩

theorem enrich_eq (r : SupplierRecord) (t : String) :
    enrich_record_from_directory r t =
      { r with
        email :=
          if extract_emails t ≠ [] ∧ pyTruthy r.email = false then
            some (joinComma (extract_emails t))
          else r.email
        contact_number :=
          if extract_phones t ≠ [] ∧ pyTruthy r.contact_number = false then
            some (joinComma (extract_phones t))
          else r.contact_number } := by
  unfold enrich_record_from_directory
  by_cases h1 : extract_emails t ≠ [] ∧ pyTruthy r.email = false <;>
    by_cases h2 : extract_phones t ≠ [] ∧ pyTruthy r.contact_number = false <;>
    simp [h1, h2]

/-- C6: `enrich_record_from_directory` fills `email` and `contact_number`
from the directory text only when the current value is absent (Python
falsy) and never overwrites an existing value; it is idempotent; and it
is the identity when the text contains no email and no phone matches. -/
theorem C6_enrich_only_fills_absent (r : SupplierRecord) (t : String) :
    (pyTruthy r.email = true →
      (enrich_record_from_directory r t).email = r.email) ∧
    (pyTruthy r.contact_number = true →
      (enrich_record_from_directory r t).contact_number = r.contact_number) ∧
    (pyTruthy r.email = false → extract_emails t ≠ [] →
      (enrich_record_from_directory r t).email =
        some (joinComma (extract_emails t))) ∧
    (pyTruthy r.contact_number = false → extract_phones t ≠ [] →
      (enrich_record_from_directory r t).contact_number =
        some (joinComma (extract_phones t))) ∧
    enrich_record_from_directory (enrich_record_from_directory r t) t =
      enrich_record_from_directory r t ∧
    (extract_emails t = [] → extract_phones t = [] →
      enrich_record_from_directory r t = r) := by
  refine ⟨?_, ?_, ?_, ?_, ?_, ?_⟩
  · intro h
    rw [enrich_eq]
    have : ¬ (extract_emails t ≠ [] ∧ pyTruthy r.email = false) := by
      simp [h]
    simp [this]
  · intro h
    rw [enrich_eq]
    have : ¬ (extract_phones t ≠ [] ∧ pyTruthy r.contact_number = false) := by
      simp [h]
    simp [this]
  · intro h he
    rw [enrich_eq]
    simp [he, h]
  · intro h hp
    rw [enrich_eq]
    simp [hp, h]
  · rw [enrich_eq (enrich_record_from_directory r t) t]
    have hE := enrich_eq r t
    have he2 : (if extract_emails t ≠ [] ∧
          pyTruthy (enrich_record_from_directory r t).email = false then
        some (joinComma (extract_emails t))
      else (enrich_record_from_directory r t).email) =
        (enrich_record_from_directory r t).email := by
      by_cases hc : extract_emails t ≠ [] ∧
          pyTruthy (enrich_record_from_directory r t).email = false
      · rw [if_pos hc]
        by_cases h1 : extract_emails t ≠ [] ∧ pyTruthy r.email = false
        · rw [hE]
          simp [h1]
        · exfalso
          rw [hE] at hc
          simp only [if_neg h1] at hc
          exact absurd ⟨hc.1, by simpa using hc.2⟩ h1
      · rw [if_neg hc]
    have hc2 : (if extract_phones t ≠ [] ∧
          pyTruthy (enrich_record_from_directory r t).contact_number =
            false then
        some (joinComma (extract_phones t))
      else (enrich_record_from_directory r t).contact_number) =
        (enrich_record_from_directory r t).contact_number := by
      by_cases hc : extract_phones t ≠ [] ∧
          pyTruthy (enrich_record_from_directory r t).contact_number = false
      · rw [if_pos hc]
        by_cases h1 : extract_phones t ≠ [] ∧ pyTruthy r.contact_number = false
        · rw [hE]
          simp [h1]
        · exfalso
          rw [hE] at hc
          simp only [if_neg h1] at hc
          exact absurd ⟨hc.1, by simpa using hc.2⟩ h1
      · rw [if_neg hc]
    rw [he2, hc2]
  · intro he hp
    rw [enrich_eq]
    simp [he, hp]

/-- Record with pre-populated contact fields, and inert directory text,
used by the C6 witness. -/
def recordC6 : SupplierRecord :=
  { serial_number := 1, name := "Acme", email := some "x@y.zz",
    contact_number := some "111-2222" }

theorem C6_witness :
    (pyTruthy recordC6.email = true ∧ pyTruthy recordC6.contact_number = true ∧
      extract_emails "zz" = [] ∧ extract_phones "zz" = []) ∧
    (enrich_record_from_directory recordC6 "zz").email = recordC6.email ∧
    enrich_record_from_directory recordC6 "zz" = recordC6 :=
  ⟨⟨by decide, by decide, by decide, by decide⟩,
    (C6_enrich_only_fills_absent recordC6 "zz").1 (by decide),
    (C6_enrich_only_fills_absent recordC6 "zz").2.2.2.2.2 (by decide)
      (by decide)⟩

/-- C4: the page-interpretation step performs no fetch of its own: the
record produced by `scrape_supplier_page` is exactly the pure function
`interpretPage` of the URL, the already-fetched HTML, and the country
and region labels (the country code and the fetch oracle play no role
beyond producing that HTML), and any two fetch oracles that return the
same body for the request yield identical results, so two runs with the
same four inputs yield identical records. -/
theorem C4_interpreter_pure (fetch g : String → String → FetchOutcome)
    (parse : String → Soup) (url country region country_code html : String)
    (hf : fetch url country_code = .success html) :
    scrape_supplier_page fetch parse url country region country_code =
      .ok (interpretPage parse url html country region) ∧
    (g url country_code = fetch url country_code →
      scrape_supplier_page g parse url country region country_code =
        scrape_supplier_page fetch parse url country region country_code) := by
  constructor
  · unfold scrape_supplier_page
    rw [hf]
  · intro hg
    unfold scrape_supplier_page
    rw [hg]

theorem C4_witness :
    (fun _ _ => FetchOutcome.success "<html>") "u" "cc" =
      FetchOutcome.success "<html>" ∧
    scrape_supplier_page (fun _ _ => FetchOutcome.success "<html>")
        (fun _ => {}) "u" "China" "Asia" "cc" =
      .ok (interpretPage (fun _ => {}) "u" "<html>" "China" "Asia") :=
  ⟨rfl,
    (C4_interpreter_pure (fun _ _ => FetchOutcome.success "<html>")
      (fun _ _ => FetchOutcome.success "<html>") (fun _ => {}) "u" "China"
      "Asia" "cc" "<html>" rfl).1⟩

/-- C7: interpretation is a total function (it returns a record for every
URL and every HTML content, malformed or empty — there is no error
case), and on a document with no title tag, no `h1`, no description
meta tag and no paragraphs, the record's `name` is the URL's host
component and `company_details` is absent. -/
theorem C7_interpret_fallbacks (parse : String → Soup)
    (url html country region : String)
    (ht : (parse html).titleString = none) (hh : (parse html).h1Text = none)
    (hm : (parse html).metaContent = none)
    (hp : (parse html).paragraphs = []) :
    (interpretPage parse url html country region).name = pyNetloc url ∧
    (interpretPage parse url html country region).company_details = none := by
  have hbt : best_title (parse html) = "" := by
    unfold best_title
    rw [ht, hh]
  have hps : page_summary (parse html) = "" := by
    unfold page_summary
    rw [hm, hp]
  unfold interpretPage
  simp [hbt, hps]

theorem C7_witness :
    (((fun _ => {}) : String → Soup) "<bad").titleString = none ∧
    (interpretPage (fun _ => {}) "http://h.example/x" "<bad" "China"
        "Asia").name = pyNetloc "http://h.example/x" ∧
    (interpretPage (fun _ => {}) "http://h.example/x" "<bad" "China"
        "Asia").company_details = none :=
  ⟨rfl,
    (C7_interpret_fallbacks (fun _ => {}) "http://h.example/x" "<bad"
      "China" "Asia" rfl rfl rfl rfl).1,
    (C7_interpret_fallbacks (fun _ => {}) "http://h.example/x" "<bad"
      "China" "Asia" rfl rfl rfl rfl).2⟩

theorem processLinks_length (fetch : String → String → FetchOutcome)
    (parse : String → Soup) (country region country_code : String) :
    ∀ (links : List String) (idx : Nat),
      (processLinks fetch parse country region country_code links idx).1.length
        = links.length := by
  intro links
  induction links with
  | nil => intro idx; rfl
  | cons u rest ih =>
    intro idx
    cases h : scrape_supplier_page fetch parse u country region country_code
      with
    | ok record => simp [processLinks, h, ih]
    | error exc => simp [processLinks, h, ih]

theorem processLinks_cons (fetch : String → String → FetchOutcome)
    (parse : String → Soup) (country region country_code u : String)
    (rest : List String) (idx : Nat) :
    processLinks fetch parse country region country_code (u :: rest) idx =
      match scrape_supplier_page fetch parse u country region country_code
        with
      | .ok record =>
        ({ record with serial_number := idx } ::
            (processLinks fetch parse country region country_code rest
              (idx + 1)).1,
          .attempt u :: .pause ::
            (processLinks fetch parse country region country_code rest
              (idx + 1)).2)
      | .error exc =>
        (failureRecord idx u country region exc ::
            (processLinks fetch parse country region country_code rest
              (idx + 1)).1,
          .attempt u ::
            (processLinks fetch parse country region country_code rest
              (idx + 1)).2) := rfl

theorem processLinks_get (fetch : String → String → FetchOutcome)
    (parse : String → Soup) (country region country_code : String) :
    ∀ (links : List String) (idx i : Nat) (h : i < links.length)
      (h2 : i <
        (processLinks fetch parse country region country_code links
          idx).1.length),
      (processLinks fetch parse country region country_code links idx).1.get
          ⟨i, h2⟩ =
        match fetch (links.get ⟨i, h⟩) country_code with
        | .success html =>
          { interpretPage parse (links.get ⟨i, h⟩) html country region with
              serial_number := idx + i }
        | .failure e =>
          failureRecord (idx + i) (links.get ⟨i, h⟩) country region e := by
  intro links
  induction links with
  | nil => intro idx i h; simp at h
  | cons u rest ih =>
    intro idx i h h2
    cases i with
    | zero =>
      cases hg : fetch u country_code with
      | success html =>
        have hs : scrape_supplier_page fetch parse u country region
            country_code = .ok (interpretPage parse u html country region) :=
          by unfold scrape_supplier_page; rw [hg]
        simp [processLinks_cons, hs, hg]
      | failure e =>
        have hs : scrape_supplier_page fetch parse u country region
            country_code = .error e := by
          unfold scrape_supplier_page; rw [hg]
        simp [processLinks_cons, hs, hg]
    | succ i =>
      have hr : i < rest.length := by simpa using h
      have h2r : i <
          (processLinks fetch parse country region country_code rest
            (idx + 1)).1.length := by
        rw [processLinks_length]; exact hr
      have harith : idx + (i + 1) = (idx + 1) + i := by omega
      have hthis := ih (idx + 1) i hr h2r
      cases hs : scrape_supplier_page fetch parse u country region
          country_code with
      | ok record =>
        have hl : (processLinks fetch parse country region country_code
              (u :: rest) idx).1 =
            { record with serial_number := idx } ::
              (processLinks fetch parse country region country_code rest
                (idx + 1)).1 := by
          rw [processLinks_cons, hs]
        revert h2
        rw [hl]
        intro h2
        simp only [List.get_cons_succ]
        rw [harith]
        exact hthis
      | error exc =>
        have hl : (processLinks fetch parse country region country_code
              (u :: rest) idx).1 =
            failureRecord idx u country region exc ::
              (processLinks fetch parse country region country_code rest
                (idx + 1)).1 := by
          rw [processLinks_cons, hs]
        revert h2
        rw [hl]
        intro h2
        simp only [List.get_cons_succ]
        rw [harith]
        exact hthis

/-- Fetch oracle that fails every request; used by concrete witnesses. -/
def fetchFail : String → String → FetchOutcome :=
  fun _ _ => .failure "boom"

/-- Parser oracle returning the empty document; used by concrete
witnesses. -/
def parseNothing : String → Soup :=
  fun _ => {}

/-- C1: for every discovered URL list of length N, the batch loop
produces exactly N records, in input order (the i-th record's website is
the i-th URL), with serial numbers forming the contiguous sequence 1..N;
an empty URL list yields the empty record list (not an error). -/
theorem C1_buildRecords_length_and_serials
    (fetch : String → String → FetchOutcome) (parse : String → Soup)
    (country region country_code : String) (links : List String) :
    (processLinks fetch parse country region country_code links 1).1.length =
      links.length ∧
    (links = [] →
      (processLinks fetch parse country region country_code links 1).1 =
        []) ∧
    ∀ i (h : i < links.length),
      ∃ h2 : i < (processLinks fetch parse country region country_code links
          1).1.length,
        ((processLinks fetch parse country region country_code links 1).1.get
            ⟨i, h2⟩).serial_number = i + 1 ∧
        ((processLinks fetch parse country region country_code links 1).1.get
            ⟨i, h2⟩).website = some (links.get ⟨i, h⟩) := by
  refine ⟨processLinks_length fetch parse country region country_code links 1,
    ?_, ?_⟩
  · rintro rfl
    rfl
  · intro i h
    have h2 : i < (processLinks fetch parse country region country_code links
        1).1.length := by
      rw [processLinks_length]; exact h
    refine ⟨h2, ?_, ?_⟩
    · rw [processLinks_get fetch parse country region country_code links 1 i h
        h2]
      cases hf : fetch (links.get ⟨i, h⟩) country_code with
      | success html => simp [Nat.add_comm]
      | failure e => simp [failureRecord, Nat.add_comm]
    · rw [processLinks_get fetch parse country region country_code links 1 i h
        h2]
      cases hf : fetch (links.get ⟨i, h⟩) country_code with
      | success html => simp [interpretPage]
      | failure e => simp [failureRecord]

theorem C1_witness :
    ((0 : Nat) < (["http://a.example/"] : List String).length ∧
      (["http://a.example/"] : List String) ≠ []) ∧
    ∃ h2 : 0 < (processLinks fetchFail parseNothing "China" "Asia" "cn"
        ["http://a.example/"] 1).1.length,
      ((processLinks fetchFail parseNothing "China" "Asia" "cn"
          ["http://a.example/"] 1).1.get ⟨0, h2⟩).serial_number = 0 + 1 ∧
      ((processLinks fetchFail parseNothing "China" "Asia" "cn"
          ["http://a.example/"] 1).1.get ⟨0, h2⟩).website =
        some ((["http://a.example/"] : List String).get ⟨0, by decide⟩) :=
  ⟨⟨by decide, by decide⟩,
    (C1_buildRecords_length_and_serials fetchFail parseNothing "China" "Asia"
      "cn" ["http://a.example/"]).2.2 0 (by decide)⟩

/-- C2: a fetch failure for the URL at 0-based index i (1-based position
i+1) yields exactly the placeholder record: serial number i+1, website
the URL, name the URL's host component, a non-empty failure note, and
absent email, contact number and company details; the failure is
confined to that URL and the batch still yields one record per URL. -/
theorem C2_failure_yields_placeholder
    (fetch : String → String → FetchOutcome) (parse : String → Soup)
    (country region country_code : String) (links : List String) (i : Nat)
    (err : String) (h : i < links.length)
    (hf : fetch (links.get ⟨i, h⟩) country_code = .failure err) :
    (processLinks fetch parse country region country_code links 1).1.length =
      links.length ∧
    ∃ h2 : i < (processLinks fetch parse country region country_code links
        1).1.length,
      (processLinks fetch parse country region country_code links 1).1.get
          ⟨i, h2⟩ =
        failureRecord (i + 1) (links.get ⟨i, h⟩) country region err ∧
      (failureRecord (i + 1) (links.get ⟨i, h⟩) country region
        err).serial_number = i + 1 ∧
      (failureRecord (i + 1) (links.get ⟨i, h⟩) country region err).website =
        some (links.get ⟨i, h⟩) ∧
      (failureRecord (i + 1) (links.get ⟨i, h⟩) country region err).name =
        pyNetloc (links.get ⟨i, h⟩) ∧
      (failureRecord (i + 1) (links.get ⟨i, h⟩) country region err).notes =
        some ("Failed to fetch page: " ++ err) ∧
      0 < ("Failed to fetch page: " ++ err).length ∧
      (failureRecord (i + 1) (links.get ⟨i, h⟩) country region err).email =
        none ∧
      (failureRecord (i + 1) (links.get ⟨i, h⟩) country region
        err).contact_number = none ∧
      (failureRecord (i + 1) (links.get ⟨i, h⟩) country region
        err).company_details = none := by
  refine ⟨processLinks_length fetch parse country region country_code links 1,
    ?_⟩
  have h2 : i < (processLinks fetch parse country region country_code links
      1).1.length := by
    rw [processLinks_length]; exact h
  refine ⟨h2, ?_, rfl, rfl, rfl, rfl, ?_, rfl, rfl, rfl⟩
  · rw [processLinks_get fetch parse country region country_code links 1 i h
      h2, hf]
    rw [Nat.add_comm]
  · have hlen : ("Failed to fetch page: " : String).length = 22 := rfl
    rw [String.length_append]
    omega

theorem C2_witness :
    ((0 : Nat) < (["http://a.example/"] : List String).length ∧
      fetchFail ((["http://a.example/"] : List String).get ⟨0, by decide⟩)
        "cn" = .failure "boom") ∧
    ∃ h2 : 0 < (processLinks fetchFail parseNothing "China" "Asia" "cn"
        ["http://a.example/"] 1).1.length,
      (processLinks fetchFail parseNothing "China" "Asia" "cn"
          ["http://a.example/"] 1).1.get ⟨0, h2⟩ =
        failureRecord (0 + 1)
          ((["http://a.example/"] : List String).get ⟨0, by decide⟩) "China"
          "Asia" "boom" ∧
      (failureRecord (0 + 1)
          ((["http://a.example/"] : List String).get ⟨0, by decide⟩) "China"
          "Asia" "boom").serial_number = 0 + 1 ∧
      (failureRecord (0 + 1)
          ((["http://a.example/"] : List String).get ⟨0, by decide⟩) "China"
          "Asia" "boom").website =
        some ((["http://a.example/"] : List String).get ⟨0, by decide⟩) ∧
      (failureRecord (0 + 1)
          ((["http://a.example/"] : List String).get ⟨0, by decide⟩) "China"
          "Asia" "boom").name =
        pyNetloc ((["http://a.example/"] : List String).get ⟨0, by decide⟩) ∧
      (failureRecord (0 + 1)
          ((["http://a.example/"] : List String).get ⟨0, by decide⟩) "China"
          "Asia" "boom").notes =
        some ("Failed to fetch page: " ++ "boom") ∧
      0 < ("Failed to fetch page: " ++ "boom").length ∧
      (failureRecord (0 + 1)
          ((["http://a.example/"] : List String).get ⟨0, by decide⟩) "China"
          "Asia" "boom").email = none ∧
      (failureRecord (0 + 1)
          ((["http://a.example/"] : List String).get ⟨0, by decide⟩) "China"
          "Asia" "boom").contact_number = none ∧
      (failureRecord (0 + 1)
          ((["http://a.example/"] : List String).get ⟨0, by decide⟩) "China"
          "Asia" "boom").company_details = none :=
  ⟨⟨by decide, rfl⟩,
    (C2_failure_yields_placeholder fetchFail parseNothing "China" "Asia" "cn"
      ["http://a.example/"] 0 "boom" (by decide) rfl).2⟩

/-- Fetch oracle failing only on the first URL of the two-URL
counterexample run. -/
def fetchFailFirst : String → String → FetchOutcome :=
  fun u _ =>
    if u = "http://a.example/" then .failure "timed out"
    else .success "<html>"

/-- C3 counterexample: in the run over
`["http://a.example/", "http://b.example/"]` in which the first fetch
fails and the second succeeds, the event trace is
`[attempt a, attempt b, pause]`: the second URL's attempt begins with no
pause after the failed first attempt, so the claimed discipline (the
inter-request delay follows every attempt, success or failure) is
false. -/
theorem C3_counterexample :
    (processLinks fetchFailFirst parseNothing "China" "Asia" "cn"
        ["http://a.example/", "http://b.example/"] 1).2 =
      [.attempt "http://a.example/", .attempt "http://b.example/",
        .pause] ∧
    pauseBeforeEveryNext
      (processLinks fetchFailFirst parseNothing "China" "Asia" "cn"
        ["http://a.example/", "http://b.example/"] 1).2 = false := by
  constructor
  · decide
  · decide

/-- C3 amended: the inter-request pause is performed after each
successful attempt only; after a failed attempt the loop proceeds to the
next URL immediately.  The event trace of the batch loop is exactly one
attempt per URL, followed by a pause exactly when the scrape
succeeded. -/
theorem C3_amended_pause_only_after_success
    (fetch : String → String → FetchOutcome) (parse : String → Soup)
    (country region country_code : String) :
    ∀ (links : List String) (idx : Nat),
      (processLinks fetch parse country region country_code links idx).2 =
        links.flatMap (fun u =>
          match scrape_supplier_page fetch parse u country region
            country_code with
          | .ok _ => [.attempt u, .pause]
          | .error _ => [.attempt u]) := by
  intro links
  induction links with
  | nil => intro idx; rfl
  | cons u rest ih =>
    intro idx
    cases hs : scrape_supplier_page fetch parse u country region country_code
      with
    | ok record => simp [processLinks_cons, hs, ih]
    | error exc => simp [processLinks_cons, hs, ih]

theorem extractLink_sound {href l : String} (h : extractLink href = some l) :
    l ≠ "" ∧ containsSeq "google.com".toList l.toList = false := by
  simp only [extractLink] at h
  by_cases hp : ("/url?q=".toList).isPrefixOf href.toList
  · rw [if_pos hp] at h
    by_cases hc :
        (pySplit ['&']
            ((pySplit "/url?q=".toList href.toList).getLastD [])).headD []
          ≠ [] ∧
        containsSeq "google.com".toList
          ((pySplit ['&']
            ((pySplit "/url?q=".toList href.toList).getLastD [])).headD [])
          = false
    · rw [if_pos hc] at h
      have hl : ((pySplit ['&']
          ((pySplit "/url?q=".toList href.toList).getLastD [])).headD
            []).asString = l := by
        simpa using h
      subst hl
      refine ⟨?_, ?_⟩
      · intro he
        apply hc.1
        have := congrArg String.toList he
        rwa [toList_asString] at this
      · rw [toList_asString]
        exact hc.2
    · rw [if_neg hc] at h
      simp at h
  · rw [if_neg hp] at h
    simp at h

theorem googleLoop_mem (n : Nat) :
    ∀ (hrefs acc : List String) (l : String),
      l ∈ googleLoop n acc hrefs →
      l ∈ acc ∨ ∃ href ∈ hrefs, extractLink href = some l := by
  intro hrefs
  induction hrefs with
  | nil =>
    intro acc l h
    left
    simpa [googleLoop] using h
  | cons href rest ih =>
    intro acc l h
    cases hx : extractLink href with
    | some x =>
      simp only [googleLoop, hx] at h
      split at h
      · rcases List.mem_append.mp h with h | h
        · exact Or.inl h
        · right
          exact ⟨href, List.mem_cons_self _ _, by
            rw [hx, List.mem_singleton.mp h]⟩
      · rcases ih (acc ++ [x]) l h with h | ⟨hr, hmem, hext⟩
        · rcases List.mem_append.mp h with h | h
          · exact Or.inl h
          · right
            exact ⟨href, List.mem_cons_self _ _, by
              rw [hx, List.mem_singleton.mp h]⟩
        · exact Or.inr ⟨hr, List.mem_cons_of_mem _ hmem, hext⟩
    | none =>
      simp only [googleLoop, hx] at h
      split at h
      · exact Or.inl h
      · rcases ih acc l h with h | ⟨hr, hmem, hext⟩
        · exact Or.inl h
        · exact Or.inr ⟨hr, List.mem_cons_of_mem _ hmem, hext⟩

theorem googleLoop_length_le (n : Nat) :
    ∀ (hrefs acc : List String), acc.length < n →
      (googleLoop n acc hrefs).length ≤ n := by
  intro hrefs
  induction hrefs with
  | nil =>
    intro acc h
    simpa [googleLoop] using le_of_lt h
  | cons href rest ih =>
    intro acc h
    cases hx : extractLink href with
    | some x =>
      simp only [googleLoop, hx]
      by_cases hb : n ≤ (acc ++ [x]).length
      · rw [if_pos hb]
        simp only [List.length_append, List.length_singleton]
        omega
      · rw [if_neg hb]
        exact ih _ (lt_of_not_le hb)
    | none =>
      simp only [googleLoop, hx]
      by_cases hb : n ≤ acc.length
      · omega
      · rw [if_neg hb]
        exact ih _ h

theorem mem_dedupGo :
    ∀ (xs seen : List String) (y : String), y ∈ dedupGo seen xs → y ∈ xs := by
  intro xs
  induction xs with
  | nil => intro seen y h; simp [dedupGo] at h
  | cons x rest ih =>
    intro seen y h
    unfold dedupGo at h
    by_cases hx : x ∈ seen
    · rw [if_pos hx] at h
      exact List.mem_cons_of_mem x (ih _ y h)
    · rw [if_neg hx] at h
      rcases List.mem_cons.mp h with rfl | h
      · exact List.mem_cons_self _ _
      · exact List.mem_cons_of_mem x (ih _ y h)

theorem dedupGo_not_mem_seen :
    ∀ (xs seen : List String) (y : String), y ∈ dedupGo seen xs →
      y ∉ seen := by
  intro xs
  induction xs with
  | nil => intro seen y h; simp [dedupGo] at h
  | cons x rest ih =>
    intro seen y h
    unfold dedupGo at h
    by_cases hx : x ∈ seen
    · rw [if_pos hx] at h
      exact ih _ y h
    · rw [if_neg hx] at h
      rcases List.mem_cons.mp h with rfl | h
      · exact hx
      · intro hy
        exact ih _ y h (List.mem_cons_of_mem x hy)

theorem dedupGo_nodup : ∀ (xs seen : List String), (dedupGo seen xs).Nodup := by
  intro xs
  induction xs with
  | nil => intro seen; simp [dedupGo]
  | cons x rest ih =>
    intro seen
    unfold dedupGo
    by_cases hx : x ∈ seen
    · rw [if_pos hx]
      exact ih _
    · rw [if_neg hx]
      refine List.nodup_cons.mpr ⟨?_, ih _⟩
      intro hmem
      exact dedupGo_not_mem_seen rest (x :: seen) x hmem
        (List.mem_cons_self _ _)

theorem dedupGo_sublist :
    ∀ (xs seen : List String), List.Sublist (dedupGo seen xs) xs := by
  intro xs
  induction xs with
  | nil => intro seen; simp [dedupGo]
  | cons x rest ih =>
    intro seen
    unfold dedupGo
    by_cases hx : x ∈ seen
    · rw [if_pos hx]
      exact (ih seen).cons x
    · rw [if_neg hx]
      exact (ih (x :: seen)).cons₂ x

theorem mem_dedupGo_of_mem :
    ∀ (xs seen : List String) (y : String), y ∈ xs →
      y ∈ seen ∨ y ∈ dedupGo seen xs := by
  intro xs
  induction xs with
  | nil => intro seen y h; simp at h
  | cons x rest ih =>
    intro seen y h
    unfold dedupGo
    by_cases hx : x ∈ seen
    · rw [if_pos hx]
      rcases List.mem_cons.mp h with rfl | h
      · exact Or.inl hx
      · exact ih seen y h
    · rw [if_neg hx]
      rcases List.mem_cons.mp h with rfl | h
      · exact Or.inr (List.mem_cons_self _ _)
      · rcases ih (x :: seen) y h with hy | hy
        · rcases List.mem_cons.mp hy with rfl | hy
          · exact Or.inr (List.mem_cons_self _ _)
          · exact Or.inl hy
        · exact Or.inr (List.mem_cons_of_mem _ hy)

theorem google_search_mem_sound {hrefs : List String} {n : Nat} {l : String}
    (h : l ∈ google_search hrefs n) :
    l ∈ googleLoop n [] hrefs ∧ l ≠ "" ∧
    containsSeq "google.com".toList l.toList = false := by
  have hl : l ∈ googleLoop n [] hrefs := mem_dedupGo _ _ _ h
  rcases googleLoop_mem n hrefs [] l hl with hacc | ⟨href, _, hx⟩
  · simp at hacc
  · obtain ⟨h1, h2⟩ := extractLink_sound hx
    exact ⟨hl, h1, h2⟩

/-- C8 counterexample: with `num_results = 0` the break check
`len(links) >= num_results` runs only after the first anchor has already
been appended, so `google_search` returns one link — more than the
requested cap of 0.  The claim that the result always has at most
`num_results` entries is therefore false as stated. -/
theorem C8_counterexample :
    google_search ["/url?q=http://a.example/&"] 0 = ["http://a.example/"] ∧
    ¬ ((google_search ["/url?q=http://a.example/&"] 0).length ≤ 0) := by
  exact ⟨by decide, by decide⟩

/-- Deduplication preserving first-seen order, written from the
specification's words: keep each element's first occurrence and delete
its later duplicates, then continue with the remainder.  This is the
specification-side characterization against which the implementation's
accumulator-based `dedupGo` is compared: a deduplication that kept a
later occurrence instead (e.g. `[b, a]` for the raw list `[a, b, a]`)
differs from it. -/
def firstSeenDedup : List String → List String
  | [] => []
  | x :: xs => x :: firstSeenDedup (xs.filter (fun y => y ≠ x))
termination_by l => l.length
decreasing_by
  simp only [List.length_cons]
  exact Nat.lt_succ_of_le (List.length_filter_le _ _)

theorem dedupGo_eq_firstSeenDedup :
    ∀ (xs seen : List String),
      dedupGo seen xs = firstSeenDedup (xs.filter (fun y => y ∉ seen)) := by
  intro xs
  induction xs with
  | nil => intro seen; simp [dedupGo, firstSeenDedup]
  | cons x rest ih =>
    intro seen
    unfold dedupGo
    by_cases hx : x ∈ seen
    · rw [if_pos hx]
      have hfx : (x :: rest).filter (fun y => y ∉ seen) =
          rest.filter (fun y => y ∉ seen) := by
        rw [List.filter_cons]
        simp [hx]
      rw [hfx]
      exact ih seen
    · rw [if_neg hx]
      have hfx : (x :: rest).filter (fun y => y ∉ seen) =
          x :: rest.filter (fun y => y ∉ seen) := by
        rw [List.filter_cons]
        simp [hx]
      rw [hfx, firstSeenDedup]
      have hmerge : (rest.filter (fun y => y ∉ seen)).filter
            (fun y => y ≠ x) =
          rest.filter (fun y => y ∉ x :: seen) := by
        rw [List.filter_filter]
        apply List.filter_congr
        intro a _
        by_cases h1 : a = x <;> by_cases h2 : a ∈ seen <;> simp [h1, h2]
      rw [hmerge]
      rw [ih (x :: seen)]

/-- C8 amended: for every anchor listing and every `num_results ≥ 1`,
`google_search` returns a duplicate-free list with at most
`num_results` entries and no empty link and no link whose text contains
`google.com`; it deduplicates the extracted raw link sequence while
preserving first-seen order — it equals `firstSeenDedup` of the raw
links (each element's first occurrence kept, later duplicates removed),
and in particular is a sublist of the raw links with the same members.
(For `num_results = 0` the cap can be exceeded by one, see the
counterexample.) -/
theorem C8_google_search_amended (hrefs : List String) (n : Nat)
    (hn : 1 ≤ n) :
    (google_search hrefs n).Nodup ∧
    google_search hrefs n = firstSeenDedup (googleLoop n [] hrefs) ∧
    List.Sublist (google_search hrefs n) (googleLoop n [] hrefs) ∧
    (∀ l, l ∈ google_search hrefs n ↔ l ∈ googleLoop n [] hrefs) ∧
    (google_search hrefs n).length ≤ n ∧
    ∀ l ∈ google_search hrefs n,
      l ≠ "" ∧ containsSeq "google.com".toList l.toList = false := by
  refine ⟨dedupGo_nodup _ _, ?_, dedupGo_sublist _ _, ?_, ?_, ?_⟩
  · rw [show google_search hrefs n = dedupGo [] (googleLoop n [] hrefs)
      from rfl]
    rw [dedupGo_eq_firstSeenDedup (googleLoop n [] hrefs) []]
    congr 1
    simp
  · intro l
    constructor
    · exact mem_dedupGo _ _ _
    · intro hl
      rcases mem_dedupGo_of_mem _ [] _ hl with h | h
      · simp at h
      · exact h
  · calc (google_search hrefs n).length
        ≤ (googleLoop n [] hrefs).length :=
          (dedupGo_sublist _ _).length_le
      _ ≤ n := googleLoop_length_le n hrefs [] (by simpa using hn)
  · intro l hl
    exact (google_search_mem_sound hl).2

theorem C8_witness :
    ((1 : Nat) ≤ 5 ∧
      "http://a.example/" ∈ google_search ["/url?q=http://a.example/&"] 5) ∧
    google_search ["/url?q=http://a.example/&"] 5 =
      firstSeenDedup (googleLoop 5 [] ["/url?q=http://a.example/&"]) ∧
    (google_search ["/url?q=http://a.example/&"] 5).length ≤ 5 ∧
    "http://a.example/" ≠ "" :=
  ⟨⟨by decide, by decide⟩,
    (C8_google_search_amended ["/url?q=http://a.example/&"] 5
      (by decide)).2.1,
    (C8_google_search_amended ["/url?q=http://a.example/&"] 5
      (by decide)).2.2.2.2.1,
    ((C8_google_search_amended ["/url?q=http://a.example/&"] 5
      (by decide)).2.2.2.2.2 "http://a.example/" (by decide)).1⟩

/-- Search-result anchor listing with three eligible outbound links, the
first two pointing at the same target. -/
def hrefsC10 : List String :=
  ["/url?q=http://a.example/&x", "/url?q=http://a.example/&y",
   "/url?q=http://b.example/&z"]

/-- C10: the result-count cap is applied to the raw extracted link list
before deduplication.  `hrefsC10` holds two distinct eligible links (the
run with cap 3 returns both), yet with `num_results = 2` the loop stops
after collecting the duplicate pair of the first link and returns a
single URL — strictly fewer than 2. -/
theorem C10_cap_applied_before_dedup :
    google_search hrefsC10 2 = ["http://a.example/"] ∧
    (google_search hrefsC10 2).length < 2 ∧
    google_search hrefsC10 3 = ["http://a.example/", "http://b.example/"] := by
  refine ⟨by decide, by decide, by decide⟩

theorem processLinks_website (fetch : String → String → FetchOutcome)
    (parse : String → Soup) (country region country_code : String) :
    ∀ (links : List String) (idx : Nat) (r : SupplierRecord),
      r ∈ (processLinks fetch parse country region country_code links
        idx).1 →
      ∃ u ∈ links, r.website = some u := by
  intro links
  induction links with
  | nil => intro idx r h; simp [processLinks] at h
  | cons u rest ih =>
    intro idx r h
    cases hg : fetch u country_code with
    | success html =>
      have hs : scrape_supplier_page fetch parse u country region
          country_code = .ok (interpretPage parse u html country region) :=
        by unfold scrape_supplier_page; rw [hg]
      simp only [processLinks_cons, hs] at h
      rcases List.mem_cons.mp h with rfl | h
      · exact ⟨u, List.mem_cons_self _ _, by simp [interpretPage]⟩
      · obtain ⟨v, hv, hw⟩ := ih (idx + 1) r h
        exact ⟨v, List.mem_cons_of_mem _ hv, hw⟩
    | failure e =>
      have hs : scrape_supplier_page fetch parse u country region
          country_code = .error e := by
        unfold scrape_supplier_page; rw [hg]
      simp only [processLinks_cons, hs] at h
      rcases List.mem_cons.mp h with rfl | h
      · exact ⟨u, List.mem_cons_self _ _, rfl⟩
      · obtain ⟨v, hv, hw⟩ := ih (idx + 1) r h
        exact ⟨v, List.mem_cons_of_mem _ hv, hw⟩

/-- Search-result listing whose single eligible link, `abc`, has no host
component. -/
def hrefsC9 : List String := ["/url?q=abc&x"]

/-- C9 counterexample: a run whose discovery yields the scheme-less URL
`abc` and whose fetch fails produces a placeholder record whose `name`
is the empty string (the URL's host component is empty), refuting the
claim that every record has a non-empty name. -/
theorem C9_counterexample :
    (build_records fetchFail parseNothing hrefsC9 "China" "Asia" "cn" 5).1 =
      [failureRecord 1 "abc" "China" "Asia" "boom"] ∧
    (failureRecord 1 "abc" "China" "Asia" "boom").name = "" ∧
    (failureRecord 1 "abc" "China" "Asia" "boom").website = some "abc" := by
  refine ⟨by decide, by decide, by decide⟩

/-- C9 amended: every record produced by `build_records`, on both the
success and the failure path, has a non-empty website (the discovered
URL, which the search loop only ever admits non-empty); its name is
derived from the page title with the URL's host component as fallback,
but may be empty when the title is absent and the URL has no host
component. -/
theorem C9_amended_nonempty_website
    (fetch : String → String → FetchOutcome) (parse : String → Soup)
    (hrefs : List String) (country region country_code : String) (n : Nat) :
    ∀ r ∈ (build_records fetch parse hrefs country region country_code n).1,
      ∃ u, r.website = some u ∧ u ≠ "" := by
  intro r hr
  obtain ⟨u, hu, hw⟩ := processLinks_website fetch parse country region
    country_code (google_search hrefs n) 1 r hr
  exact ⟨u, hw, (google_search_mem_sound hu).2.1⟩

theorem C9_witness :
    failureRecord 1 "abc" "China" "Asia" "boom" ∈
      (build_records fetchFail parseNothing hrefsC9 "China" "Asia" "cn"
        5).1 ∧
    ∃ u, (failureRecord 1 "abc" "China" "Asia" "boom").website = some u ∧
      u ≠ "" :=
  ⟨by decide,
    C9_amended_nonempty_website fetchFail parseNothing hrefsC9 "China" "Asia"
      "cn" 5 _ (by decide)⟩
